import Mathlib

/-!
A shallow embedding of the aggregation/reporting core of the LC_index
repository, together with theorems checking the natural-language
specification against it.

The repository has two variants of the core:

* `src/routes/sheets.py` (the API-facing variant): `process_data` walks a
  list of dict records and conditionally derives `TOTAL`, `TOTAL NW`,
  `TOTAL GW`; `sort_and_subtotal` sorts the records by `ITEM`, groups them,
  and returns a dict with keys `data`, `subtotals`, `grand_total`.
* `data_structure.py` (the pandas variant): `sort_and_subtotal` assembles an
  interleaved report, group data rows followed by a subtotal row labeled
  with the group key plus a " Subtotal" suffix, terminated by a
  "Grand Total" row.

Python values relevant to the core are embedded as `Value` (machine ints as
unbounded integers, floats idealized as rationals, strings as strings);
Python dicts with string keys are embedded as insertion-ordered association
lists with first-occurrence lookup and in-place overwrite, matching dict
semantics. Fallible Python expressions (the `*` operator on strings, the
key comparison in `sorted`) are embedded with `Option`/`Except`.
-/

/-- A Python value as it occurs in the records handled by the core:
an int, a float (idealized as an exact rational), or a string. -/
inductive Value where
  | int (n : ℤ)
  | float (q : ℚ)
  | str (s : String)
deriving DecidableEq, Repr

namespace Value

/-- Embedding of Python `isinstance(v, (int, float))`. -/
def isNum : Value → Bool
  | int _ => true
  | float _ => true
  | str _ => false

/-- The numeric content of a value, 0 for strings.  Used only where the
code has already filtered for numbers or where the spec assigns 0. -/
def toRat : Value → ℚ
  | int n => (n : ℚ)
  | float q => q
  | str _ => 0

/-- Embedding of Python `==` on values: numbers compare by numeric value
across int/float (`1 == 1.0` in Python), strings by string equality,
a number never equals a string.  Python dict keys identify by this. -/
def valueEq : Value → Value → Bool
  | int m, int n => m == n
  | int m, float q => (m : ℚ) == q
  | float q, int n => q == (n : ℚ)
  | float p, float q => p == q
  | str s, str t => s == t
  | str _, _ => false
  | _, str _ => false

/-- Python string repetition `s * n` (negative counts yield the empty
string). -/
def strRep (s : String) (n : ℤ) : String :=
  String.join (List.replicate n.toNat s)

/-- Embedding of Python `a * b` on our value space.  `int * int` stays an
int, any other numeric mix is a float; a string times an int is string
repetition; a string times a float, or a string times a string, raises
`TypeError` (`none`). -/
def pyMul : Value → Value → Option Value
  | int m, int n => some (int (m * n))
  | int m, float q => some (float ((m : ℚ) * q))
  | float q, int n => some (float (q * (n : ℚ)))
  | float p, float q => some (float (p * q))
  | str s, int n => some (str (strRep s n))
  | int n, str s => some (str (strRep s n))
  | str _, float _ => none
  | float _, str _ => none
  | str _, str _ => none

/-- The product of two numeric values as the code computes it
(int · int stays int, otherwise float). -/
def numMul (a b : Value) : Value :=
  match a, b with
  | int m, int n => int (m * n)
  | _, _ => float (toRat a * toRat b)

/-- Python `a + b` restricted to the numeric values the summation loops
feed it (the `isinstance` filter guarantees numbers): int + int stays int,
any other combination is a float. -/
def pyAdd (a b : Value) : Value :=
  match a, b with
  | int m, int n => int (m + n)
  | _, _ => float (toRat a + toRat b)

@[simp] theorem toRat_pyAdd (a b : Value) : (pyAdd a b).toRat = a.toRat + b.toRat := by
  cases a <;> cases b <;> simp [pyAdd, toRat]

theorem pyMul_of_isNum {a b : Value} (ha : a.isNum = true) (hb : b.isNum = true) :
    pyMul a b = some (numMul a b) := by
  cases a <;> cases b <;> simp_all [isNum, pyMul, numMul, toRat]

theorem toRat_numMul {a b : Value} (ha : a.isNum = true) (hb : b.isNum = true) :
    (numMul a b).toRat = a.toRat * b.toRat := by
  cases a with
  | str s => simp [isNum] at ha
  | int m =>
    cases b with
    | str s => simp [isNum] at hb
    | int n => simp [numMul, toRat]
    | float q => simp [numMul, toRat]
  | float p =>
    cases b with
    | str s => simp [isNum] at hb
    | int n => simp [numMul, toRat]
    | float q => simp [numMul, toRat]

theorem isNum_numMul {a b : Value} (ha : a.isNum = true) (hb : b.isNum = true) :
    (numMul a b).isNum = true := by
  cases a <;> cases b <;> simp_all [isNum, numMul]

end Value

/-- A Python dict record: an insertion-ordered association list from field
names to values. -/
abbrev Record := List (String × Value)

/-- Python `row.get(f)` / `row[f]`: the value at the first matching key. -/
def dictGet : Record → String → Option Value
  | [], _ => none
  | (k, v) :: rest, f => if k = f then some v else dictGet rest f

/-- Python `row.get(f, d)`. -/
def dictGetD (r : Record) (f : String) (d : Value) : Value :=
  (dictGet r f).getD d

/-- Python `f in row`. -/
def dictContains (r : Record) (f : String) : Bool :=
  (dictGet r f).isSome

/-- Python `row[f] = v`: overwrite in place if the key exists, else append
(dict insertion order). -/
def dictSet : Record → String → Value → Record
  | [], f, v => [(f, v)]
  | (k, w) :: rest, f, v =>
    if k = f then (k, v) :: rest else (k, w) :: dictSet rest f v

@[simp] theorem dictGet_nil (f : String) : dictGet [] f = none := rfl

theorem dictGet_dictSet_self (r : Record) (f : String) (v : Value) :
    dictGet (dictSet r f v) f = some v := by
  induction r with
  | nil => simp [dictSet, dictGet]
  | cons p rest ih =>
    obtain ⟨k, w⟩ := p
    by_cases h : k = f <;> simp [dictSet, dictGet, h, ih]

theorem dictGet_dictSet_ne (r : Record) (f g : String) (v : Value) (h : g ≠ f) :
    dictGet (dictSet r f v) g = dictGet r g := by
  induction r with
  | nil => simp [dictSet, dictGet, Ne.symm h]
  | cons p rest ih =>
    obtain ⟨k, w⟩ := p
    by_cases hk : k = f
    · subst hk
      simp [dictSet, dictGet, Ne.symm h]
    · by_cases hg : k = g
      · subst hg
        simp [dictSet, dictGet, hk]
      · simp [dictSet, dictGet, hk, hg, ih]

theorem dictSet_get_same {r : Record} {f : String} {v : Value}
    (h : dictGet r f = some v) : dictSet r f v = r := by
  induction r with
  | nil => simp [dictGet] at h
  | cons p rest ih =>
    obtain ⟨k, w⟩ := p
    by_cases hk : k = f
    · subst hk
      simp [dictGet] at h
      simp [dictSet, h]
    · simp [dictGet, hk] at h
      simp [dictSet, hk, ih h]

/-! ## The field deriver (`process_data` in `src/routes/sheets.py`)

```python
for row in data_list:
    if 'QTY/CTN' in row and 'CTNS' in row:
        row['TOTAL'] = row['QTY/CTN'] * row['CTNS']
    if 'CTNS' in row and 'NW' in row:
        row['TOTAL NW'] = row['CTNS'] * row['NW']
    if 'CTNS' in row and 'GW' in row:
        row['TOTAL GW'] = row['CTNS'] * row['GW']
```
-/

/-- One `if s1 in row and s2 in row: row[dst] = row[s1] * row[s2]` step.
`none` models the multiplication raising `TypeError`. -/
def mulStep (row : Record) (s1 s2 dst : String) : Option Record :=
  match dictGet row s1, dictGet row s2 with
  | some a, some b => (Value.pyMul a b).map (fun v => dictSet row dst v)
  | _, _ => some row

/-- The per-record body of `process_data`: conditionally derive `TOTAL`,
`TOTAL NW`, `TOTAL GW`. -/
def processRow (row : Record) : Option Record := do
  let r1 ← mulStep row "QTY/CTN" "CTNS" "TOTAL"
  let r2 ← mulStep r1 "CTNS" "NW" "TOTAL NW"
  mulStep r2 "CTNS" "GW" "TOTAL GW"

/-- `process_data` over the whole list (the loop raises as soon as one row
does). -/
def processData (rows : List Record) : Option (List Record) :=
  rows.mapM processRow

/-- What one derivation step leaves at the destination field: the numeric
product when both sources are present, the untouched old content
otherwise. -/
def deriveSpec (a b old : Option Value) : Option Value :=
  match a, b with
  | some x, some y => some (Value.numMul x y)
  | _, _ => old

theorem mulStep_get_other {row r1 : Record} {s1 s2 dst f : String}
    (h : mulStep row s1 s2 dst = some r1) (hf : f ≠ dst) :
    dictGet r1 f = dictGet row f := by
  unfold mulStep at h
  cases h1 : dictGet row s1 with
  | none => simp [h1] at h; simp [h.symm]
  | some a =>
    cases h2 : dictGet row s2 with
    | none => simp [h1, h2] at h; simp [h.symm]
    | some b =>
      simp [h1, h2] at h
      obtain ⟨v, hv, hr⟩ := h
      rw [hr.symm, dictGet_dictSet_ne _ _ _ _ hf]

theorem mulStep_ok {row : Record} {s1 s2 dst : String}
    (H1 : ∀ v, dictGet row s1 = some v → v.isNum = true)
    (H2 : ∀ v, dictGet row s2 = some v → v.isNum = true) :
    ∃ r1, mulStep row s1 s2 dst = some r1 ∧
      dictGet r1 dst = deriveSpec (dictGet row s1) (dictGet row s2) (dictGet row dst) ∧
      ∀ f, f ≠ dst → dictGet r1 f = dictGet row f := by
  unfold mulStep deriveSpec
  cases h1 : dictGet row s1 with
  | none =>
    exact ⟨row, rfl, rfl, fun _ _ => rfl⟩
  | some a =>
    cases h2 : dictGet row s2 with
    | none =>
      exact ⟨row, rfl, rfl, fun _ _ => rfl⟩
    | some b =>
      refine ⟨dictSet row dst (Value.numMul a b), ?_, ?_, ?_⟩
      · dsimp only
        rw [Value.pyMul_of_isNum (H1 a h1) (H2 b h2)]
        rfl
      · rw [dictGet_dictSet_self]
      · intro f hf
        exact dictGet_dictSet_ne _ _ _ _ hf

theorem mulStep_restore {row r1 r' : Record} {s1 s2 dst : String}
    (h : mulStep row s1 s2 dst = some r1)
    (hg1 : dictGet r' s1 = dictGet row s1)
    (hg2 : dictGet r' s2 = dictGet row s2)
    (hgd : dictGet r' dst = dictGet r1 dst) :
    mulStep r' s1 s2 dst = some r' := by
  unfold mulStep at h ⊢
  cases h1 : dictGet row s1 with
  | none => simp [hg1, h1]
  | some a =>
    cases h2 : dictGet row s2 with
    | none => simp [hg1, hg2, h1, h2]
    | some b =>
      rw [h1, h2] at h
      dsimp only at h
      cases hm : Value.pyMul a b with
      | none => rw [hm] at h; simp at h
      | some v =>
        rw [hm] at h
        simp at h
        rw [hg1, h1, hg2, h2]
        dsimp only
        rw [hm]
        have hd : dictGet r' dst = some v := by
          rw [hgd, ← h, dictGet_dictSet_self]
        simp [dictSet_get_same hd]

theorem processRow_eq_some {r r' : Record} :
    processRow r = some r' ↔
      ∃ r1 r2, mulStep r "QTY/CTN" "CTNS" "TOTAL" = some r1 ∧
        mulStep r1 "CTNS" "NW" "TOTAL NW" = some r2 ∧
        mulStep r2 "CTNS" "GW" "TOTAL GW" = some r' := by
  simp [processRow, Option.bind_eq_some]

theorem processRow_fix {r r' : Record} (hp : processRow r = some r') :
    processRow r' = some r' := by
  obtain ⟨r1, r2, h1, h2, h3⟩ := processRow_eq_some.mp hp
  have gQ : dictGet r' "QTY/CTN" = dictGet r "QTY/CTN" := by
    rw [mulStep_get_other h3 (by decide), mulStep_get_other h2 (by decide),
      mulStep_get_other h1 (by decide)]
  have gC3 : dictGet r' "CTNS" = dictGet r2 "CTNS" :=
    mulStep_get_other h3 (by decide)
  have gC1 : dictGet r' "CTNS" = dictGet r "CTNS" := by
    rw [gC3, mulStep_get_other h2 (by decide), mulStep_get_other h1 (by decide)]
  have gC2 : dictGet r' "CTNS" = dictGet r1 "CTNS" := by
    rw [gC3, mulStep_get_other h2 (by decide)]
  have gN : dictGet r' "NW" = dictGet r1 "NW" := by
    rw [mulStep_get_other h3 (by decide), mulStep_get_other h2 (by decide)]
  have gG : dictGet r' "GW" = dictGet r2 "GW" := by
    rw [mulStep_get_other h3 (by decide)]
  have gT : dictGet r' "TOTAL" = dictGet r1 "TOTAL" := by
    rw [mulStep_get_other h3 (by decide), mulStep_get_other h2 (by decide)]
  have gTN : dictGet r' "TOTAL NW" = dictGet r2 "TOTAL NW" := by
    rw [mulStep_get_other h3 (by decide)]
  have s1 : mulStep r' "QTY/CTN" "CTNS" "TOTAL" = some r' :=
    mulStep_restore h1 gQ gC1 gT
  have s2 : mulStep r' "CTNS" "NW" "TOTAL NW" = some r' :=
    mulStep_restore h2 gC2 gN gTN
  have s3 : mulStep r' "CTNS" "GW" "TOTAL GW" = some r' :=
    mulStep_restore h3 gC3 gG rfl
  exact processRow_eq_some.mpr ⟨r', r', s1, s2, s3⟩

/-- The fields that feed the three derivation formulas. -/
def sourceFields : List String := ["QTY/CTN", "CTNS", "NW", "GW"]

/-- All source fields of a record that are present hold numeric values
(the typing under which the spec scopes the field deriver). -/
def sourcesNumeric (r : Record) : Bool :=
  sourceFields.all (fun f =>
    match dictGet r f with
    | some v => v.isNum
    | none => true)

theorem sourcesNumeric_spec {r : Record} (H : sourcesNumeric r = true) :
    ∀ f, f ∈ sourceFields → ∀ v, dictGet r f = some v → v.isNum = true := by
  intro f hf v hv
  have h := List.all_eq_true.mp H f hf
  rw [hv] at h
  exact h

/-- C2: derive sets each of `TOTAL`, `TOTAL NW`, `TOTAL GW` to the product
of its two source fields exactly when both sources are present (overwriting
any pre-existing value), and otherwise leaves the destination exactly as it
was in the input (present only if it was present); when computed, the
stored value is the numeric product of the sources. -/
theorem derive_totals (r : Record) (H : sourcesNumeric r = true) :
    ∃ r', processRow r = some r' ∧
      dictGet r' "TOTAL" =
        deriveSpec (dictGet r "QTY/CTN") (dictGet r "CTNS") (dictGet r "TOTAL") ∧
      dictGet r' "TOTAL NW" =
        deriveSpec (dictGet r "CTNS") (dictGet r "NW") (dictGet r "TOTAL NW") ∧
      dictGet r' "TOTAL GW" =
        deriveSpec (dictGet r "CTNS") (dictGet r "GW") (dictGet r "TOTAL GW") ∧
      (∀ a b v, dictGet r "QTY/CTN" = some a → dictGet r "CTNS" = some b →
        dictGet r' "TOTAL" = some v → v.toRat = a.toRat * b.toRat) ∧
      (∀ a b v, dictGet r "CTNS" = some a → dictGet r "NW" = some b →
        dictGet r' "TOTAL NW" = some v → v.toRat = a.toRat * b.toRat) ∧
      (∀ a b v, dictGet r "CTNS" = some a → dictGet r "GW" = some b →
        dictGet r' "TOTAL GW" = some v → v.toRat = a.toRat * b.toRat) := by
  have H' := sourcesNumeric_spec H
  have HQ := H' "QTY/CTN" (by decide)
  have HC := H' "CTNS" (by decide)
  have HN := H' "NW" (by decide)
  have HG := H' "GW" (by decide)
  obtain ⟨r1, h1, hd1, ho1⟩ := @mulStep_ok r "QTY/CTN" "CTNS" "TOTAL" HQ HC
  have e1C : dictGet r1 "CTNS" = dictGet r "CTNS" := ho1 _ (by decide)
  have e1N : dictGet r1 "NW" = dictGet r "NW" := ho1 _ (by decide)
  have e1G : dictGet r1 "GW" = dictGet r "GW" := ho1 _ (by decide)
  have e1TN : dictGet r1 "TOTAL NW" = dictGet r "TOTAL NW" := ho1 _ (by decide)
  have e1TG : dictGet r1 "TOTAL GW" = dictGet r "TOTAL GW" := ho1 _ (by decide)
  obtain ⟨r2, h2, hd2, ho2⟩ := @mulStep_ok r1 "CTNS" "NW" "TOTAL NW"
    (fun v hv => HC v (e1C ▸ hv)) (fun v hv => HN v (e1N ▸ hv))
  have e2C : dictGet r2 "CTNS" = dictGet r "CTNS" := by
    rw [ho2 _ (by decide), e1C]
  have e2G : dictGet r2 "GW" = dictGet r "GW" := by
    rw [ho2 _ (by decide), e1G]
  have e2T : dictGet r2 "TOTAL" = dictGet r1 "TOTAL" := ho2 _ (by decide)
  have e2TG : dictGet r2 "TOTAL GW" = dictGet r "TOTAL GW" := by
    rw [ho2 _ (by decide), e1TG]
  obtain ⟨r3, h3, hd3, ho3⟩ := @mulStep_ok r2 "CTNS" "GW" "TOTAL GW"
    (fun v hv => HC v (e2C ▸ hv)) (fun v hv => HG v (e2G ▸ hv))
  have e3T : dictGet r3 "TOTAL" = dictGet r1 "TOTAL" := by
    rw [ho3 _ (by decide), e2T]
  have e3TN : dictGet r3 "TOTAL NW" = dictGet r2 "TOTAL NW" := ho3 _ (by decide)
  refine ⟨r3, processRow_eq_some.mpr ⟨r1, r2, h1, h2, h3⟩, ?_, ?_, ?_, ?_, ?_, ?_⟩
  · rw [e3T, hd1]
  · rw [e3TN, hd2, e1C, e1N, e1TN]
  · rw [hd3, e2C, e2G, e2TG]
  · intro a b v ha hb hv
    rw [e3T, hd1, ha, hb] at hv
    simp [deriveSpec] at hv
    rw [← hv]
    exact Value.toRat_numMul (HQ a ha) (HC b hb)
  · intro a b v ha hb hv
    rw [e3TN, hd2, e1C, e1N, ha, hb] at hv
    simp [deriveSpec] at hv
    rw [← hv]
    exact Value.toRat_numMul (HC a ha) (HN b hb)
  · intro a b v ha hb hv
    rw [hd3, e2C, e2G, ha, hb] at hv
    simp [deriveSpec] at hv
    rw [← hv]
    exact Value.toRat_numMul (HC a ha) (HG b hb)

/-- C8: derive is idempotent: running `process_data`'s per-record body on
its own output changes nothing (and a failing record keeps failing). -/
theorem derive_idem (r : Record) : (processRow r).bind processRow = processRow r := by
  cases hp : processRow r with
  | none => rfl
  | some r' => simpa using processRow_fix hp

/-! ## Python `sorted` with a key function

CPython's sort is a stable ascending sort driven by `<` on the keys.  On
the value space of this embedding, `<` is defined within numbers (ints and
floats compare by numeric value) and within strings, and raises
`TypeError` across the two classes.  While detecting runs, the sort
compares every pair of adjacent elements, so a key list containing both a
number and a string always raises; a homogeneous key list never does.  We
embed the sort as a total stable insertion sort over a sum type of key
classes and surface the `TypeError` at the call sites that can mix. -/

/-- The comparison space of sort keys: numbers (as rationals) or strings. -/
abbrev SKey := ℚ ⊕ String

/-- The sort key class of a value: ints and floats share the numeric
component because Python compares them by numeric value. -/
def Value.toKey : Value → SKey
  | .int n => Sum.inl (n : ℚ)
  | .float q => Sum.inl q
  | .str s => Sum.inr s

/-- Python `<` on one character: comparison of Unicode code points. -/
def charLtB (a b : Char) : Bool := decide (a.toNat < b.toNat)

/-- Python `<` on strings as lists of characters: lexicographic comparison
by code point, a strict prefix comparing below its extensions. -/
def strLtB : List Char → List Char → Bool
  | [], [] => false
  | [], _ :: _ => true
  | _ :: _, [] => false
  | a :: as, b :: bs =>
    if a.toNat < b.toNat then true
    else if b.toNat < a.toNat then false
    else strLtB as bs

/-- Python `s < t` on strings. -/
def strLt (s t : String) : Bool := strLtB s.data t.data

theorem strLtB_irrefl (l : List Char) : strLtB l l = false := by
  induction l with
  | nil => rfl
  | cons a as ih => simp [strLtB, ih]

theorem strLtB_asymm : ∀ {x y : List Char}, strLtB x y = true → strLtB y x = false
  | [], [], h => by simp [strLtB] at h
  | [], _ :: _, _ => rfl
  | _ :: _, [], h => by simp [strLtB] at h
  | a :: as, b :: bs, h => by
    by_cases hab : a.toNat < b.toNat
    · have hba : ¬ b.toNat < a.toNat := by omega
      simp [strLtB, hab, hba]
    · by_cases hba : b.toNat < a.toNat
      · simp [strLtB, hab, hba] at h
      · simp only [strLtB, if_neg hab, if_neg hba] at h
        simp [strLtB, hab, hba, strLtB_asymm h]

theorem strLtB_negtrans :
    ∀ (x y z : List Char), strLtB y x = false → strLtB z y = false →
      strLtB z x = false
  | [], y, z, _, _ => by cases z <;> rfl
  | _ :: _, [], _, h1, _ => by simp [strLtB] at h1
  | a :: as, b :: bs, [], _, h2 => by simp [strLtB] at h2
  | a :: as, b :: bs, c :: cs, h1, h2 => by
    have hba : ¬ b.toNat < a.toNat := by
      intro hcon
      simp [strLtB, hcon] at h1
    have hcb : ¬ c.toNat < b.toNat := by
      intro hcon
      simp [strLtB, hcon] at h2
    have hca : ¬ c.toNat < a.toNat := by omega
    by_cases hac : a.toNat < c.toNat
    · simp [strLtB, hca, hac]
    · have hab : ¬ a.toNat < b.toNat := by omega
      have hbc : ¬ b.toNat < c.toNat := by omega
      simp only [strLtB, if_neg hba, if_neg hab] at h1
      simp only [strLtB, if_neg hcb, if_neg hbc] at h2
      simp [strLtB, hca, hac, strLtB_negtrans as bs cs h1 h2]

/-- Strict `<` on sort keys.  The cross-class branches are unreachable on
inputs Python accepts (it raises `TypeError` there) and are fixed
arbitrarily to keep the function total. -/
def skLt : SKey → SKey → Bool
  | Sum.inl a, Sum.inl b => decide (a < b)
  | Sum.inl _, Sum.inr _ => true
  | Sum.inr _, Sum.inl _ => false
  | Sum.inr s, Sum.inr t => strLt s t

/-- Non-strict `≤` on sort keys, the order the sorted output satisfies. -/
def skLe : SKey → SKey → Bool
  | Sum.inl a, Sum.inl b => decide (a ≤ b)
  | Sum.inl _, Sum.inr _ => true
  | Sum.inr _, Sum.inl _ => false
  | Sum.inr s, Sum.inr t => !(strLt t s)

theorem skLt_irrefl (x : SKey) : skLt x x = false := by
  cases x with
  | inl a => simp [skLt]
  | inr s => simp [skLt, strLt, strLtB_irrefl]

theorem skLe_of_skLt {x y : SKey} (h : skLt x y = true) : skLe x y = true := by
  cases x with
  | inl a =>
    cases y with
    | inl b =>
      simp [skLt] at h
      simp [skLe, le_of_lt h]
    | inr t => rfl
  | inr s =>
    cases y with
    | inl b => simp [skLt] at h
    | inr t =>
      simp only [skLt, strLt] at h
      simp [skLe, strLt, strLtB_asymm h]

theorem skLe_of_not_skLt {x y : SKey} (h : skLt x y = false) : skLe y x = true := by
  cases x with
  | inl a =>
    cases y with
    | inl b =>
      simp [skLt] at h
      simp [skLe, h]
    | inr t => simp [skLt] at h
  | inr s =>
    cases y with
    | inl b => rfl
    | inr t =>
      simp only [skLt, strLt] at h
      simp [skLe, strLt, h]

theorem skLe_trans {x y z : SKey} (h1 : skLe x y = true) (h2 : skLe y z = true) :
    skLe x z = true := by
  cases x with
  | inl a =>
    cases z with
    | inl c =>
      cases y with
      | inl b =>
        simp [skLe] at h1 h2 ⊢
        exact le_trans h1 h2
      | inr t => simp [skLe] at h2
    | inr t => rfl
  | inr s =>
    cases y with
    | inl b => simp [skLe] at h1
    | inr t =>
      cases z with
      | inl c => simp [skLe] at h2
      | inr u =>
        simp only [skLe, strLt, Bool.not_eq_true'] at h1 h2 ⊢
        exact strLtB_negtrans _ _ _ h1 h2

section StableSort

variable {α : Type} (k : α → SKey)

/-- Insert `x` after every already-placed element whose key is strictly
below `x`'s: the insertion step of a stable ascending sort. -/
def sInsert (x : α) : List α → List α
  | [] => [x]
  | y :: ys => if skLt (k y) (k x) then y :: sInsert x ys else x :: y :: ys

/-- Stable ascending sort by key, the embedding of Python
`sorted(l, key=k)`. -/
def ssort (l : List α) : List α := l.foldr (sInsert k) []

theorem sInsert_perm (x : α) (l : List α) : List.Perm (sInsert k x l) (x :: l) := by
  induction l with
  | nil => exact List.Perm.refl _
  | cons y ys ih =>
    by_cases h : skLt (k y) (k x) = true
    · simp only [sInsert, if_pos h]
      exact ((ih.cons y).trans (List.Perm.swap x y ys))
    · simp only [sInsert, if_neg h]
      exact List.Perm.refl _

theorem ssort_perm (l : List α) : List.Perm (ssort k l) l := by
  induction l with
  | nil => exact List.Perm.refl _
  | cons x xs ih =>
    exact (sInsert_perm k x (ssort k xs)).trans (ih.cons x)

theorem sInsert_pairwise {x : α} {l : List α}
    (hl : l.Pairwise (fun a b => skLe (k a) (k b) = true)) :
    (sInsert k x l).Pairwise (fun a b => skLe (k a) (k b) = true) := by
  induction l with
  | nil => simp [sInsert]
  | cons y ys ih =>
    rcases List.pairwise_cons.mp hl with ⟨hy, hys⟩
    by_cases h : skLt (k y) (k x) = true
    · rw [show sInsert k x (y :: ys) = y :: sInsert k x ys by
        simp only [sInsert, if_pos h]]
      refine List.pairwise_cons.mpr ⟨?_, ih hys⟩
      intro b hb
      have hb' : b ∈ x :: ys := (sInsert_perm k x ys).mem_iff.mp hb
      rcases List.mem_cons.mp hb' with rfl | hb'
      · exact skLe_of_skLt h
      · exact hy b hb'
    · rw [show sInsert k x (y :: ys) = x :: y :: ys by
        simp only [sInsert, if_neg h]]
      have hf : skLt (k y) (k x) = false := by simpa using h
      have hxy : skLe (k x) (k y) = true := skLe_of_not_skLt hf
      refine List.pairwise_cons.mpr ⟨?_, hl⟩
      intro b hb
      rcases List.mem_cons.mp hb with rfl | hb
      · exact hxy
      · exact skLe_trans hxy (hy b hb)

theorem ssort_pairwise (l : List α) :
    (ssort k l).Pairwise (fun a b => skLe (k a) (k b) = true) := by
  induction l with
  | nil => simp [ssort]
  | cons x xs ih => exact sInsert_pairwise k ih

theorem sInsert_filter_eq (x : α) (l : List α) (κ : SKey) :
    (sInsert k x l).filter (fun a => decide (k a = κ)) =
      if k x = κ then x :: l.filter (fun a => decide (k a = κ))
      else l.filter (fun a => decide (k a = κ)) := by
  induction l with
  | nil =>
    by_cases h : k x = κ <;> simp [sInsert, List.filter, h]
  | cons y ys ih =>
    by_cases hlt : skLt (k y) (k x) = true
    · rw [show sInsert k x (y :: ys) = y :: sInsert k x ys by
        simp only [sInsert, if_pos hlt]]
      by_cases hy : k y = κ
      · by_cases hx : k x = κ
        · exfalso
          rw [hy, hx] at hlt
          exact absurd hlt (by simp [skLt_irrefl])
        · simp [List.filter_cons, hy, hx, ih]
      · simp [List.filter_cons, hy, ih]
    · rw [show sInsert k x (y :: ys) = x :: y :: ys by
        simp only [sInsert, if_neg hlt]]
      by_cases hx : k x = κ <;> simp [List.filter_cons, hx]

theorem ssort_filter (l : List α) (κ : SKey) :
    (ssort k l).filter (fun a => decide (k a = κ)) =
      l.filter (fun a => decide (k a = κ)) := by
  induction l with
  | nil => rfl
  | cons x xs ih =>
    rw [show ssort k (x :: xs) = sInsert k x (ssort k xs) from rfl,
      sInsert_filter_eq]
    by_cases hx : k x = κ <;> simp [List.filter_cons, hx, ih]

end StableSort

/-! ## The aggregator (`sort_and_subtotal` in `src/routes/sheets.py`)

```python
data_sorted = sorted(data_list, key=lambda x: x.get('ITEM', ''))
result = {'data': data_sorted, 'subtotals': {}, 'grand_total': {}}
items = {}
for row in data_sorted:
    item = row.get('ITEM', 'Unknown')
    if item not in items:
        items[item] = []
    items[item].append(row)
for item, rows in items.items():
    subtotal = {}
    numeric_fields = ['CTNS', 'TOTAL', 'TOTAL NW', 'TOTAL GW', 'QTY/CTN', 'NW', 'GW']
    for field in numeric_fields:
        if any(field in row for row in rows):
            subtotal[field] = sum(row.get(field, 0) for row in rows
                                  if isinstance(row.get(field), (int, float)))
    result['subtotals'][item] = subtotal
# ... identical loop over data_sorted fills result['grand_total']
```
-/

/-- The sort key of a record: `x.get('ITEM', '')`. -/
def sortKey (r : Record) : Value := dictGetD r "ITEM" (.str "")

/-- The grouping key of a record: `row.get('ITEM', 'Unknown')`. -/
def groupKey (r : Record) : Value := dictGetD r "ITEM" (.str "Unknown")

/-- The comparison-space image of a record's sort key. -/
def recKey (r : Record) : SKey := (sortKey r).toKey

/-- `sorted(data_list, key=lambda x: x.get('ITEM', ''))` once the key
comparisons are known not to raise. -/
def pySortRecords (l : List Record) : List Record :=
  ssort recKey l

/-- One iteration of the grouping loop: append the row to the entry whose
key Python-equals `k`, or open a fresh entry at the end (dict insertion
order). -/
def addRow : List (Value × List Record) → Value → Record → List (Value × List Record)
  | [], k, row => [(k, [row])]
  | (k', rows) :: rest, k, row =>
    if Value.valueEq k' k then (k', rows ++ [row]) :: rest
    else (k', rows) :: addRow rest k row

/-- The `items` dict after the grouping loop over the sorted data. -/
def itemsOf (sortedData : List Record) : List (Value × List Record) :=
  sortedData.foldl (fun acc row => addRow acc (groupKey row) row) []

/-- The fixed numeric-field list of the API-facing aggregator. -/
def numericFields : List String :=
  ["CTNS", "TOTAL", "TOTAL NW", "TOTAL GW", "QTY/CTN", "NW", "GW"]

/-- `sum(row.get(field, 0) for row in rows if isinstance(row.get(field),
(int, float)))`: rows whose value at the field is missing or non-numeric
are filtered out (contributing 0), the rest are summed from an int 0. -/
def sumField (rows : List Record) (f : String) : Value :=
  (rows.filterMap (fun row =>
    match dictGet row f with
    | some v => if v.isNum then some v else none
    | none => none)).foldl Value.pyAdd (Value.int 0)

/-- The subtotal dict for a list of rows: a numeric field is included iff
some row has it present, and then holds `sumField`.  The grand total is
the identical computation applied to all sorted rows. -/
def subtotalOf (rows : List Record) : Record :=
  numericFields.filterMap (fun f =>
    if rows.any (fun row => dictContains row f) then some (f, sumField rows f)
    else none)

/-- The result dict of `sort_and_subtotal`. -/
structure SheetResult where
  data : List Record
  subtotals : List (Value × Record)
  grand_total : Record
deriving DecidableEq, Repr

/-- The body of `sort_and_subtotal` past the point where `sorted` has
succeeded. -/
def sortAndSubtotal (l : List Record) : SheetResult :=
  let ds := pySortRecords l
  { data := ds
    subtotals := (itemsOf ds).map (fun p => (p.1, subtotalOf p.2))
    grand_total := subtotalOf ds }

/-- Whether `sorted` raises on this input: it does exactly when the sort
keys contain both a number and a string, since run detection compares every
adjacent pair of keys and some adjacent pair then mixes the classes. -/
def mixedKeys (l : List Record) : Bool :=
  (l.any fun r => (sortKey r).isNum) && (l.any fun r => !(sortKey r).isNum)

/-- `sort_and_subtotal` as the caller sees it: `TypeError` when the sort
keys mix numbers and strings, the result dict otherwise. -/
def pySortAndSubtotal (l : List Record) : Except String SheetResult :=
  if mixedKeys l then .error "TypeError" else .ok (sortAndSubtotal l)

theorem sortAndSubtotal_of_ok {l : List Record} {res : SheetResult}
    (hok : pySortAndSubtotal l = .ok res) : res = sortAndSubtotal l := by
  unfold pySortAndSubtotal at hok
  by_cases h : mixedKeys l = true
  · simp [h] at hok
  · simp [h] at hok
    exact hok.symm

/-! ## Facts about the subtotal computation -/

/-- The contribution of one row to a field sum: its numeric value, or 0
when the field is missing or holds a non-numeric value. -/
def contrib (f : String) (row : Record) : ℚ :=
  match dictGet row f with
  | some v => if v.isNum then v.toRat else 0
  | none => 0

/-- The numeric reading of a record's field, 0 when absent. -/
def ratAt (r : Record) (f : String) : ℚ :=
  match dictGet r f with
  | some v => v.toRat
  | none => 0

theorem toRat_foldl_pyAdd (vs : List Value) (s : Value) :
    (vs.foldl Value.pyAdd s).toRat = s.toRat + (vs.map Value.toRat).sum := by
  induction vs generalizing s with
  | nil => simp
  | cons v vs ih =>
    simp only [List.foldl_cons, List.map_cons, List.sum_cons, ih, Value.toRat_pyAdd]
    ring

theorem toRat_sumField (rows : List Record) (f : String) :
    (sumField rows f).toRat = (rows.map (contrib f)).sum := by
  unfold sumField
  rw [toRat_foldl_pyAdd]
  simp only [Value.toRat, Int.cast_zero, zero_add]
  induction rows with
  | nil => simp
  | cons r rest ih =>
    simp only [List.filterMap_cons, List.map_cons, List.sum_cons]
    cases hg : dictGet r f with
    | none => simp [contrib, hg, ih]
    | some v =>
      by_cases hn : v.isNum = true
      · simp [contrib, hg, hn, ih]
      · simp [contrib, hg, hn, ih]

theorem dictGet_condBuild (fields : List String) (P : String → Bool) (h : String → Value)
    (f : String) (hnd : fields.Nodup) :
    dictGet (fields.filterMap (fun x => if P x then some (x, h x) else none)) f =
      if f ∈ fields then (if P f then some (h f) else none) else none := by
  induction fields with
  | nil => simp
  | cons x rest ih =>
    have hx : x ∉ rest := (List.nodup_cons.mp hnd).1
    have hr : rest.Nodup := (List.nodup_cons.mp hnd).2
    by_cases hpx : P x = true
    · simp only [List.filterMap_cons, hpx, if_pos]
      by_cases hfx : x = f
      · subst hfx
        simp [dictGet, hpx]
      · rw [show dictGet ((x, h x) :: rest.filterMap
            (fun x => if P x then some (x, h x) else none)) f =
            dictGet (rest.filterMap (fun x => if P x then some (x, h x) else none)) f by
            simp [dictGet, hfx]]
        rw [ih hr]
        simp [List.mem_cons, Ne.symm hfx]
    · have hpx' : P x = false := by simpa using hpx
      simp only [List.filterMap_cons, hpx', Bool.false_eq_true, if_neg, if_false]
      by_cases hfx : x = f
      · subst hfx
        rw [ih hr]
        simp [hx, hpx']
      · rw [ih hr]
        simp [List.mem_cons, Ne.symm hfx]

theorem dictGet_subtotalOf (rows : List Record) (f : String) :
    dictGet (subtotalOf rows) f =
      if f ∈ numericFields then
        (if rows.any (fun row => dictContains row f) then some (sumField rows f)
         else none)
      else none := by
  unfold subtotalOf
  exact dictGet_condBuild numericFields _ _ f (by decide)

theorem dictContains_subtotalOf (rows : List Record) (f : String)
    (hf : f ∈ numericFields) :
    dictContains (subtotalOf rows) f = rows.any (fun row => dictContains row f) := by
  rw [show dictContains (subtotalOf rows) f = (dictGet (subtotalOf rows) f).isSome
    from rfl]
  rw [dictGet_subtotalOf, if_pos hf]
  cases h : rows.any (fun row => dictContains row f) with
  | false => rfl
  | true => rfl

theorem dictGet_subtotalOf_some {rows : List Record} {f : String} {v : Value}
    (h : dictGet (subtotalOf rows) f = some v) :
    v.toRat = (rows.map (contrib f)).sum := by
  rw [dictGet_subtotalOf] at h
  by_cases h1 : f ∈ numericFields
  · by_cases h2 : rows.any (fun row => dictContains row f) = true
    · simp only [h1, if_pos, h2, if_true] at h
      rw [← Option.some_inj.mp h]
      exact toRat_sumField rows f
    · simp [h1, h2] at h
  · simp [h1] at h

theorem contrib_eq_zero_of_no_contains {rows : List Record} {f : String}
    (h : rows.any (fun row => dictContains row f) = false) :
    ∀ r ∈ rows, contrib f r = 0 := by
  intro r hr
  unfold contrib
  cases hg : dictGet r f with
  | none => rfl
  | some v =>
    exfalso
    rw [List.any_eq_false] at h
    exact absurd (by simp [dictContains, hg]) (h r hr)

theorem ratAt_subtotalOf (rows : List Record) (f : String) (hf : f ∈ numericFields) :
    ratAt (subtotalOf rows) f = (rows.map (contrib f)).sum := by
  unfold ratAt
  rw [dictGet_subtotalOf]
  by_cases h : rows.any (fun row => dictContains row f) = true
  · simp only [hf, if_pos, h, if_true]
    exact toRat_sumField rows f
  · have h' : rows.any (fun row => dictContains row f) = false := by simpa using h
    simp only [hf, if_pos, h', Bool.false_eq_true, if_false]
    symm
    apply List.sum_eq_zero
    intro x hx
    rcases List.mem_map.mp hx with ⟨r, hr, rfl⟩
    exact contrib_eq_zero_of_no_contains h' r hr

/-! ## Facts about the grouping loop -/

theorem valueEq_refl (v : Value) : Value.valueEq v v = true := by
  cases v <;> simp [Value.valueEq]

theorem valueEq_str {k : Value} {s : String} (h : Value.valueEq k (.str s) = true) :
    k = .str s := by
  cases k <;> simp_all [Value.valueEq]

theorem addRow_join_perm (acc : List (Value × List Record)) (k : Value) (row : Record) :
    List.Perm (((addRow acc k row).map Prod.snd).flatten)
      (((acc.map Prod.snd).flatten) ++ [row]) := by
  induction acc with
  | nil => simp [addRow]
  | cons p rest ih =>
    obtain ⟨k', rows⟩ := p
    by_cases h : Value.valueEq k' k = true
    · simp only [addRow, if_pos h, List.map_cons, List.flatten_cons]
      rw [List.append_assoc, List.append_assoc]
      exact List.Perm.append_left rows List.perm_append_comm
    · simp only [addRow, if_neg h, List.map_cons, List.flatten_cons]
      rw [List.append_assoc]
      exact List.Perm.append_left rows ih

theorem foldl_items_join (d : List Record) (acc : List (Value × List Record)) :
    List.Perm
      (((d.foldl (fun acc row => addRow acc (groupKey row) row) acc).map Prod.snd).flatten)
      (((acc.map Prod.snd).flatten) ++ d) := by
  induction d generalizing acc with
  | nil => simp
  | cons r rest ih =>
    simp only [List.foldl_cons]
    refine (ih _).trans ?_
    have h1 := (addRow_join_perm acc (groupKey r) r).append_right rest
    refine h1.trans ?_
    rw [List.append_assoc]
    exact List.Perm.refl _

theorem itemsOf_join_perm (d : List Record) :
    List.Perm (((itemsOf d).map Prod.snd).flatten) d := by
  simpa using foldl_items_join d []

theorem mem_group_of_mem {d : List Record} {r : Record} (hr : r ∈ d) :
    ∃ k rows, (k, rows) ∈ itemsOf d ∧ r ∈ rows := by
  have hj : r ∈ ((itemsOf d).map Prod.snd).flatten :=
    (itemsOf_join_perm d).mem_iff.mpr hr
  rcases List.mem_flatten.mp hj with ⟨rows, hrows, hrr⟩
  rcases List.mem_map.mp hrows with ⟨⟨k, rows'⟩, hp, rfl⟩
  exact ⟨k, rows', hp, hrr⟩

theorem mem_of_mem_group {d : List Record} {k : Value} {rows : List Record} {r : Record}
    (hp : (k, rows) ∈ itemsOf d) (hr : r ∈ rows) : r ∈ d := by
  refine (itemsOf_join_perm d).mem_iff.mp ?_
  exact List.mem_flatten.mpr ⟨rows, List.mem_map.mpr ⟨(k, rows), hp, rfl⟩, hr⟩

theorem addRow_keys_ok {acc : List (Value × List Record)}
    (hacc : ∀ p ∈ acc, ∀ r ∈ p.2, Value.valueEq p.1 (groupKey r) = true)
    (row : Record) :
    ∀ p ∈ addRow acc (groupKey row) row, ∀ r ∈ p.2,
      Value.valueEq p.1 (groupKey r) = true := by
  induction acc with
  | nil =>
    intro p hp r hr
    simp [addRow] at hp
    subst hp
    simp at hr
    subst hr
    exact valueEq_refl _
  | cons q rest ih =>
    obtain ⟨k', rows⟩ := q
    have hq := hacc (k', rows) (List.mem_cons_self _ _)
    have hrest : ∀ p ∈ rest, ∀ r ∈ p.2, Value.valueEq p.1 (groupKey r) = true :=
      fun p hp => hacc p (List.mem_cons_of_mem _ hp)
    by_cases h : Value.valueEq k' (groupKey row) = true
    · intro p hp r hr
      simp only [addRow, if_pos h] at hp
      rcases List.mem_cons.mp hp with rfl | hp
      · rcases List.mem_append.mp hr with hr | hr
        · exact hq r hr
        · simp at hr
          subst hr
          exact h
      · exact hrest p hp r hr
    · intro p hp r hr
      simp only [addRow, if_neg h] at hp
      rcases List.mem_cons.mp hp with rfl | hp
      · exact hq r hr
      · exact ih hrest p hp r hr

theorem itemsOf_keys_ok (d : List Record) :
    ∀ p ∈ itemsOf d, ∀ r ∈ p.2, Value.valueEq p.1 (groupKey r) = true := by
  suffices h : ∀ (acc : List (Value × List Record)),
      (∀ p ∈ acc, ∀ r ∈ p.2, Value.valueEq p.1 (groupKey r) = true) →
      ∀ p ∈ d.foldl (fun acc row => addRow acc (groupKey row) row) acc, ∀ r ∈ p.2,
        Value.valueEq p.1 (groupKey r) = true by
    exact h [] (by simp)
  induction d with
  | nil => intro acc hacc; simpa using hacc
  | cons r rest ih =>
    intro acc hacc
    simp only [List.foldl_cons]
    exact ih _ (addRow_keys_ok hacc r)

theorem subtotals_sum (d : List Record) (f : String) (hf : f ∈ numericFields) :
    ((itemsOf d).map (fun p => ratAt (subtotalOf p.2) f)).sum =
      (d.map (contrib f)).sum := by
  have h1 : (itemsOf d).map (fun p => ratAt (subtotalOf p.2) f) =
      (itemsOf d).map (fun p => (p.2.map (contrib f)).sum) := by
    apply List.map_congr_left
    intro p _
    exact ratAt_subtotalOf p.2 f hf
  rw [h1]
  have h2 : ((itemsOf d).map (fun p => (p.2.map (contrib f)).sum)).sum =
      ((((itemsOf d).map Prod.snd).flatten).map (contrib f)).sum := by
    rw [List.map_flatten, List.sum_flatten, List.map_map, List.map_map]
    rfl
  rw [h2]
  exact ((itemsOf_join_perm d).map (contrib f)).sum_eq

/-! ## Claim theorems for the API-facing aggregator -/

/-- Sample records used by the concrete witnesses. -/
def sampleA : Record := [("ITEM", Value.str "A"), ("CTNS", Value.int 2)]

def sampleB : Record := [("ITEM", Value.str "A"), ("GW", Value.str "bad")]

def sampleL : List Record := [sampleA, sampleB]

/-- C1: for every group the aggregator produces, the report carries the
group's subtotal row; that row contains a numeric field iff at least one
row of the group has the field present, and its numeric reading is the sum
of the group rows' contributions, a row missing the field or holding a
non-numeric value contributing 0. -/
theorem subtotal_fields_correct (l : List Record) (res : SheetResult) (k : Value)
    (rows : List Record) (f : String)
    (hok : pySortAndSubtotal l = Except.ok res)
    (hmem : (k, rows) ∈ itemsOf (pySortRecords l))
    (hf : f ∈ numericFields) :
    (k, subtotalOf rows) ∈ res.subtotals ∧
    dictContains (subtotalOf rows) f = rows.any (fun row => dictContains row f) ∧
    ratAt (subtotalOf rows) f = (rows.map (contrib f)).sum := by
  obtain rfl := sortAndSubtotal_of_ok hok
  refine ⟨?_, dictContains_subtotalOf rows f hf, ratAt_subtotalOf rows f hf⟩
  show (k, subtotalOf rows) ∈
    (itemsOf (pySortRecords l)).map (fun p => (p.1, subtotalOf p.2))
  exact List.mem_map.mpr ⟨(k, rows), hmem, rfl⟩

/-- Witness for C1 at a concrete two-record group, checking the field `GW`
that one row holds as a non-numeric value. -/
theorem subtotal_fields_correct_witness :
    (Value.str "A", subtotalOf [sampleA, sampleB]) ∈
      (sortAndSubtotal sampleL).subtotals ∧
    dictContains (subtotalOf [sampleA, sampleB]) "GW" =
      ([sampleA, sampleB].any (fun row => dictContains row "GW")) ∧
    ratAt (subtotalOf [sampleA, sampleB]) "GW" =
      ([sampleA, sampleB].map (contrib "GW")).sum :=
  subtotal_fields_correct sampleL (sortAndSubtotal sampleL) (Value.str "A")
    [sampleA, sampleB] "GW" rfl
    (by rw [show itemsOf (pySortRecords sampleL) =
        [(Value.str "A", [sampleA, sampleB])] from rfl]
        exact List.mem_singleton.mpr rfl)
    (by decide)

/-- C3: a field present in at least one group subtotal appears in the
grand-total row with the sum of the group subtotal values (a group whose
subtotal omits the field counting 0), and a field present in no group
subtotal is absent from the grand-total row. -/
theorem grand_total_sums (l : List Record) (res : SheetResult) (f : String)
    (hok : pySortAndSubtotal l = Except.ok res) :
    (res.subtotals.any (fun p => dictContains p.2 f) = true →
      dictContains res.grand_total f = true ∧
      ratAt res.grand_total f = (res.subtotals.map (fun p => ratAt p.2 f)).sum) ∧
    (res.subtotals.all (fun p => !(dictContains p.2 f)) = true →
      dictContains res.grand_total f = false) := by
  obtain rfl := sortAndSubtotal_of_ok hok
  have hgt : (sortAndSubtotal l).grand_total = subtotalOf (pySortRecords l) := rfl
  have hst : (sortAndSubtotal l).subtotals =
      (itemsOf (pySortRecords l)).map (fun p => (p.1, subtotalOf p.2)) := rfl
  by_cases hf : f ∈ numericFields
  · constructor
    · intro hany
      have hgc : (pySortRecords l).any (fun row => dictContains row f) = true := by
        rcases List.any_eq_true.mp hany with ⟨p, hp, hpc⟩
        rw [hst] at hp
        rcases List.mem_map.mp hp with ⟨⟨k, rows⟩, hmem, rfl⟩
        dsimp only at hpc
        rw [dictContains_subtotalOf rows f hf] at hpc
        rcases List.any_eq_true.mp hpc with ⟨row, hrow, hc⟩
        exact List.any_eq_true.mpr ⟨row, mem_of_mem_group hmem hrow, hc⟩
      constructor
      · rw [hgt, dictContains_subtotalOf _ f hf, hgc]
      · rw [hgt, ratAt_subtotalOf _ f hf, hst, List.map_map]
        have hcomp : ((itemsOf (pySortRecords l)).map
            ((fun p : Value × Record => ratAt p.2 f) ∘
              (fun p : Value × List Record => (p.1, subtotalOf p.2)))) =
            (itemsOf (pySortRecords l)).map
              (fun p => ratAt (subtotalOf p.2) f) := by
          apply List.map_congr_left
          intro p _
          rfl
        rw [hcomp, subtotals_sum _ f hf]
    · intro hall
      rw [hgt, dictContains_subtotalOf _ f hf]
      cases hb : (pySortRecords l).any (fun row => dictContains row f) with
      | false => rfl
      | true =>
        exfalso
        rcases List.any_eq_true.mp hb with ⟨row, hrow, hc⟩
        rcases mem_group_of_mem hrow with ⟨k, rows, hmem, hrr⟩
        have hsub : dictContains (subtotalOf rows) f = true := by
          rw [dictContains_subtotalOf rows f hf]
          exact List.any_eq_true.mpr ⟨row, hrr, hc⟩
        have hmem' : (k, subtotalOf rows) ∈ (sortAndSubtotal l).subtotals := by
          rw [hst]
          exact List.mem_map.mpr ⟨(k, rows), hmem, rfl⟩
        have := List.all_eq_true.mp hall (k, subtotalOf rows) hmem'
        simp [hsub] at this
  · have hnone : ∀ rows : List Record, dictContains (subtotalOf rows) f = false := by
      intro rows
      rw [show dictContains (subtotalOf rows) f =
        (dictGet (subtotalOf rows) f).isSome from rfl, dictGet_subtotalOf]
      simp [hf]
    constructor
    · intro hany
      exfalso
      rcases List.any_eq_true.mp hany with ⟨p, hp, hpc⟩
      rw [hst] at hp
      rcases List.mem_map.mp hp with ⟨⟨k, rows⟩, hmem, rfl⟩
      dsimp only at hpc
      rw [hnone rows] at hpc
      cases hpc
    · intro _
      rw [hgt]
      exact hnone _

/-- Witness for C3 at a concrete input and the field `CTNS`. -/
theorem grand_total_sums_witness :
    ((sortAndSubtotal sampleL).subtotals.any
        (fun p => dictContains p.2 "CTNS") = true →
      dictContains (sortAndSubtotal sampleL).grand_total "CTNS" = true ∧
      ratAt (sortAndSubtotal sampleL).grand_total "CTNS" =
        ((sortAndSubtotal sampleL).subtotals.map (fun p => ratAt p.2 "CTNS")).sum) ∧
    ((sortAndSubtotal sampleL).subtotals.all
        (fun p => !(dictContains p.2 "CTNS")) = true →
      dictContains (sortAndSubtotal sampleL).grand_total "CTNS" = false) :=
  grand_total_sums sampleL (sortAndSubtotal sampleL) "CTNS" rfl

/-- C10: the data rows of the report are a permutation of the input
records: nothing is synthesized, dropped, or duplicated. -/
theorem data_rows_permutation (l : List Record) (res : SheetResult)
    (hok : pySortAndSubtotal l = Except.ok res) : List.Perm res.data l := by
  obtain rfl := sortAndSubtotal_of_ok hok
  exact ssort_perm recKey l

/-- Witness for C10 at a concrete input. -/
theorem data_rows_permutation_witness :
    List.Perm (sortAndSubtotal sampleL).data sampleL :=
  data_rows_permutation sampleL (sortAndSubtotal sampleL) rfl

/-- C7: aggregating the empty list is not an error: no data rows, no
subtotal rows, and a grand-total dict with no numeric fields at all. -/
theorem empty_aggregation : pySortAndSubtotal [] = Except.ok ⟨[], [], []⟩ := rfl

/-- Witness for C2: a record with both `QTY/CTN` and `CTNS` numeric. -/
theorem derive_totals_witness :
    sourcesNumeric [("QTY/CTN", Value.int 10), ("CTNS", Value.int 5)] = true ∧
    (∃ r', processRow [("QTY/CTN", Value.int 10), ("CTNS", Value.int 5)] = some r' ∧
      dictGet r' "TOTAL" =
        deriveSpec (dictGet [("QTY/CTN", Value.int 10), ("CTNS", Value.int 5)] "QTY/CTN")
          (dictGet [("QTY/CTN", Value.int 10), ("CTNS", Value.int 5)] "CTNS")
          (dictGet [("QTY/CTN", Value.int 10), ("CTNS", Value.int 5)] "TOTAL") ∧
      dictGet r' "TOTAL NW" =
        deriveSpec (dictGet [("QTY/CTN", Value.int 10), ("CTNS", Value.int 5)] "CTNS")
          (dictGet [("QTY/CTN", Value.int 10), ("CTNS", Value.int 5)] "NW")
          (dictGet [("QTY/CTN", Value.int 10), ("CTNS", Value.int 5)] "TOTAL NW") ∧
      dictGet r' "TOTAL GW" =
        deriveSpec (dictGet [("QTY/CTN", Value.int 10), ("CTNS", Value.int 5)] "CTNS")
          (dictGet [("QTY/CTN", Value.int 10), ("CTNS", Value.int 5)] "GW")
          (dictGet [("QTY/CTN", Value.int 10), ("CTNS", Value.int 5)] "TOTAL GW") ∧
      (∀ a b v,
        dictGet [("QTY/CTN", Value.int 10), ("CTNS", Value.int 5)] "QTY/CTN" = some a →
        dictGet [("QTY/CTN", Value.int 10), ("CTNS", Value.int 5)] "CTNS" = some b →
        dictGet r' "TOTAL" = some v → v.toRat = a.toRat * b.toRat) ∧
      (∀ a b v,
        dictGet [("QTY/CTN", Value.int 10), ("CTNS", Value.int 5)] "CTNS" = some a →
        dictGet [("QTY/CTN", Value.int 10), ("CTNS", Value.int 5)] "NW" = some b →
        dictGet r' "TOTAL NW" = some v → v.toRat = a.toRat * b.toRat) ∧
      (∀ a b v,
        dictGet [("QTY/CTN", Value.int 10), ("CTNS", Value.int 5)] "CTNS" = some a →
        dictGet [("QTY/CTN", Value.int 10), ("CTNS", Value.int 5)] "GW" = some b →
        dictGet r' "TOTAL GW" = some v → v.toRat = a.toRat * b.toRat)) :=
  ⟨by decide, derive_totals [("QTY/CTN", Value.int 10), ("CTNS", Value.int 5)] (by decide)⟩

/-- C4: the data rows of the report are the input records stably sorted in
ascending key order: the output is pairwise ordered by the sort keys, and
records sharing a sort key keep their relative input order; on the spec's
example input the data rows come out A/y, B/x, B/z. -/
theorem data_sorted_and_stable :
    (∀ (l : List Record) (res : SheetResult), pySortAndSubtotal l = Except.ok res →
      res.data.Pairwise (fun a b => skLe (recKey a) (recKey b) = true) ∧
      ∀ κ : SKey, res.data.filter (fun r => decide (recKey r = κ)) =
        l.filter (fun r => decide (recKey r = κ))) ∧
    pySortAndSubtotal
        [[("ITEM", Value.str "B"), ("MODEL", Value.str "x")],
         [("ITEM", Value.str "A"), ("MODEL", Value.str "y")],
         [("ITEM", Value.str "B"), ("MODEL", Value.str "z")]] =
      Except.ok (sortAndSubtotal
        [[("ITEM", Value.str "B"), ("MODEL", Value.str "x")],
         [("ITEM", Value.str "A"), ("MODEL", Value.str "y")],
         [("ITEM", Value.str "B"), ("MODEL", Value.str "z")]]) ∧
    (sortAndSubtotal
        [[("ITEM", Value.str "B"), ("MODEL", Value.str "x")],
         [("ITEM", Value.str "A"), ("MODEL", Value.str "y")],
         [("ITEM", Value.str "B"), ("MODEL", Value.str "z")]]).data =
      [[("ITEM", Value.str "A"), ("MODEL", Value.str "y")],
       [("ITEM", Value.str "B"), ("MODEL", Value.str "x")],
       [("ITEM", Value.str "B"), ("MODEL", Value.str "z")]] := by
  refine ⟨?_, rfl, rfl⟩
  intro l res hok
  obtain rfl := sortAndSubtotal_of_ok hok
  exact ⟨ssort_pairwise recKey l, fun κ => ssort_filter recKey l κ⟩

/-- Witness for C4's quantified part at a concrete input and key class. -/
theorem data_sorted_and_stable_witness :
    (sortAndSubtotal sampleL).data.Pairwise
      (fun a b => skLe (recKey a) (recKey b) = true) ∧
    (sortAndSubtotal sampleL).data.filter
        (fun r => decide (recKey r = Sum.inr "A")) =
      sampleL.filter (fun r => decide (recKey r = Sum.inr "A")) :=
  ⟨(data_sorted_and_stable.1 sampleL (sortAndSubtotal sampleL) rfl).1,
   (data_sorted_and_stable.1 sampleL (sortAndSubtotal sampleL) rfl).2 (Sum.inr "A")⟩

/-- C6 counterexample: a record whose `ITEM` is the empty string is grouped
under the key `""`, not under `"Unknown"` as the claim states; and a record
with no `ITEM` field sorts by the key `""` (first), not by the label
`"Unknown"` (which would come after `"AAA"`). -/
theorem missing_key_grouping_cex :
    (pySortAndSubtotal [[("ITEM", Value.str "")]]).map
        (fun res => res.subtotals.map Prod.fst) =
      Except.ok [Value.str ""] ∧
    (pySortAndSubtotal [[("ITEM", Value.str "AAA")], [("MODEL", Value.str "m")]]).map
        (fun res => res.data) =
      Except.ok [[("MODEL", Value.str "m")], [("ITEM", Value.str "AAA")]] :=
  ⟨rfl, rfl⟩

/-- C6 amended: a record whose `ITEM` field is absent is grouped under the
literal key `"Unknown"` and its subtotal row appears under that key, but it
sorts by the key `""` rather than by the label; a record whose `ITEM` is
the empty string keeps `""` as its group key. -/
theorem missing_key_grouping_amended (l : List Record) (res : SheetResult) (r : Record)
    (hok : pySortAndSubtotal l = Except.ok res) (hr : r ∈ l)
    (habs : dictGet r "ITEM" = none) :
    sortKey r = Value.str "" ∧ groupKey r = Value.str "Unknown" ∧
    ∃ rows, (Value.str "Unknown", rows) ∈ itemsOf (pySortRecords l) ∧ r ∈ rows ∧
      (Value.str "Unknown", subtotalOf rows) ∈ res.subtotals := by
  obtain rfl := sortAndSubtotal_of_ok hok
  have hsk : sortKey r = Value.str "" := by simp [sortKey, dictGetD, habs]
  have hgk : groupKey r = Value.str "Unknown" := by simp [groupKey, dictGetD, habs]
  refine ⟨hsk, hgk, ?_⟩
  have hr' : r ∈ pySortRecords l := (ssort_perm recKey l).mem_iff.mpr hr
  rcases mem_group_of_mem hr' with ⟨k, rows, hmem, hrr⟩
  have hk := itemsOf_keys_ok (pySortRecords l) (k, rows) hmem r hrr
  rw [hgk] at hk
  obtain rfl := valueEq_str hk
  refine ⟨rows, hmem, hrr, ?_⟩
  show (Value.str "Unknown", subtotalOf rows) ∈
    (itemsOf (pySortRecords l)).map (fun p => (p.1, subtotalOf p.2))
  exact List.mem_map.mpr ⟨(Value.str "Unknown", rows), hmem, rfl⟩

/-- Witness for the amended C6 at a one-record input with no `ITEM`. -/
theorem missing_key_grouping_amended_witness :
    sortKey [("MODEL", Value.str "m")] = Value.str "" ∧
    groupKey [("MODEL", Value.str "m")] = Value.str "Unknown" ∧
    ∃ rows, (Value.str "Unknown", rows) ∈
        itemsOf (pySortRecords [[("MODEL", Value.str "m")]]) ∧
      [("MODEL", Value.str "m")] ∈ rows ∧
      (Value.str "Unknown", subtotalOf rows) ∈
        (sortAndSubtotal [[("MODEL", Value.str "m")]]).subtotals :=
  missing_key_grouping_amended [[("MODEL", Value.str "m")]]
    (sortAndSubtotal [[("MODEL", Value.str "m")]]) [("MODEL", Value.str "m")]
    rfl (List.mem_singleton.mpr rfl) rfl

/-- C9 counterexample: with one numeric and one string `ITEM` key, the key
comparison inside `sorted` raises `TypeError`, so the aggregation does not
return a report for this input. -/
theorem aggregation_raises_on_mixed_keys :
    pySortAndSubtotal [[("ITEM", Value.int 1)], [("ITEM", Value.str "a")]] =
      Except.error "TypeError" := rfl

/-- C9 amended: the aggregation returns a report for every record list
whose `ITEM` sort keys do not mix numbers and strings; when they mix,
`sorted` raises `TypeError` instead of returning. -/
theorem aggregation_total_unless_mixed :
    (∀ l : List Record, mixedKeys l = false →
      pySortAndSubtotal l = Except.ok (sortAndSubtotal l)) ∧
    (∀ l : List Record, mixedKeys l = true →
      pySortAndSubtotal l = Except.error "TypeError") := by
  constructor <;> intro l h <;> simp [pySortAndSubtotal, h]

/-- Witness for the amended C9 on one clean and one mixed input. -/
theorem aggregation_total_unless_mixed_witness :
    pySortAndSubtotal [[("ITEM", Value.str "a")]] =
      Except.ok (sortAndSubtotal [[("ITEM", Value.str "a")]]) ∧
    pySortAndSubtotal [[("ITEM", Value.int 1)], [("ITEM", Value.str "a")]] =
      Except.error "TypeError" :=
  ⟨aggregation_total_unless_mixed.1 [[("ITEM", Value.str "a")]] rfl,
   aggregation_total_unless_mixed.2 [[("ITEM", Value.int 1)], [("ITEM", Value.str "a")]] rfl⟩

/-! ## The pandas variant (`sort_and_subtotal` in `data_structure.py`)

```python
df_sorted = df.sort_values(by='ITEM').reset_index(drop=True)
subtotals = df_sorted.groupby('ITEM').agg({'CTNS': 'sum', 'TOTAL': 'sum',
    'TOTAL NW': 'sum', 'TOTAL GW': 'sum'}).reset_index()
subtotals['ITEM'] = subtotals['ITEM'] + ' Subtotal'
grand_total = pd.DataFrame([{'ITEM': 'Grand Total', 'CTNS': df_sorted['CTNS'].sum(), ...}])
result_df = pd.DataFrame(columns=df_sorted.columns)
for item in df_sorted['ITEM'].unique():
    item_data = df_sorted[df_sorted['ITEM'] == item]
    result_df = pd.concat([result_df, item_data])
    sub_total_row = subtotals[subtotals['ITEM'] == item + ' Subtotal']
    result_df = pd.concat([result_df, sub_total_row], ignore_index=True)
result_df = pd.concat([result_df, grand_total], ignore_index=True)
```

A DataFrame is embedded as a list of rows over the fixed `DATA_HEADERS`
columns, numbers idealized as rationals.  `sort_values` is embedded as a
stable ascending sort on the `ITEM` strings; synthetic total rows carry the
label and the four aggregated columns (the other columns, NaN in pandas,
are omitted). -/

/-- A row of the DataFrame with the `DATA_HEADERS` columns (`qtyCtn`
stands for the `QTY/CTN` column, `totalNw`/`totalGw` for `TOTAL NW` /
`TOTAL GW`). -/
structure DRow where
  ITEM : String
  MODEL : String
  qtyCtn : ℚ
  CTNS : ℚ
  NW : ℚ
  GW : ℚ
  TOTAL : ℚ
  totalNw : ℚ
  totalGw : ℚ
deriving DecidableEq, Repr

/-- `process_data` of the pandas variant: unconditionally recompute the
three derived columns on every row. -/
def dfProcessData (df : List DRow) : List DRow :=
  df.map (fun r => { r with TOTAL := r.qtyCtn * r.CTNS,
                            totalNw := r.CTNS * r.NW,
                            totalGw := r.CTNS * r.GW })

/-- `df.sort_values(by='ITEM')` as a stable ascending sort on `ITEM`. -/
def dfSortValues (df : List DRow) : List DRow :=
  ssort (fun r => (Sum.inr r.ITEM : SKey)) df

/-- The worker of `dedupFirst`, carrying the values already emitted. -/
def dedupGo (seen : List String) : List String → List String
  | [] => []
  | x :: xs => if x ∈ seen then dedupGo seen xs else x :: dedupGo (x :: seen) xs

/-- pandas `Series.unique`: the distinct values in order of first
appearance. -/
def dedupFirst (l : List String) : List String := dedupGo [] l

/-- A row of the assembled report: a data row of the frame, or a synthetic
total row (subtotal or grand total) with its label and the four aggregated
columns. -/
inductive PRow where
  | data (r : DRow)
  | total (label : String) (ctns total totalNw totalGw : ℚ)
deriving DecidableEq, Repr

/-- The `ITEM` column of a report row. -/
def PRow.item : PRow → String
  | .data r => r.ITEM
  | .total label _ _ _ _ => label

/-- The sum of one column over a list of rows. -/
def colSum (rows : List DRow) (col : DRow → ℚ) : ℚ := (rows.map col).sum

/-- The subtotal row of one group: the group key with the `' Subtotal'`
suffix and the four column sums over the group's rows of the sorted
frame. -/
def mkSubRow (dfS : List DRow) (k : String) : PRow :=
  PRow.total (k ++ " Subtotal")
    (colSum (dfS.filter (fun r => r.ITEM == k)) DRow.CTNS)
    (colSum (dfS.filter (fun r => r.ITEM == k)) DRow.TOTAL)
    (colSum (dfS.filter (fun r => r.ITEM == k)) DRow.totalNw)
    (colSum (dfS.filter (fun r => r.ITEM == k)) DRow.totalGw)

/-- The subtotal frame: one labeled row per distinct `ITEM` of the sorted
frame. -/
def dfSubtotals (dfS : List DRow) : List PRow :=
  (dedupFirst (dfS.map DRow.ITEM)).map (mkSubRow dfS)

/-- The grand-total row over all rows of the sorted frame. -/
def mkGrandRow (dfS : List DRow) : PRow :=
  PRow.total "Grand Total" (colSum dfS DRow.CTNS) (colSum dfS DRow.TOTAL)
    (colSum dfS DRow.totalNw) (colSum dfS DRow.totalGw)

/-- The pandas `sort_and_subtotal`: for each distinct `ITEM` of the sorted
frame in order, the group's data rows followed by the subtotal rows
selected from the subtotal frame by label, then the grand-total row. -/
def dfSortAndSubtotal (df : List DRow) : List PRow :=
  let dfS := dfSortValues df
  ((dedupFirst (dfS.map DRow.ITEM)).map (fun item =>
    (dfS.filter (fun r => r.ITEM == item)).map PRow.data
      ++ (dfSubtotals dfS).filter (fun p => p.item == item ++ " Subtotal"))).flatten
  ++ [mkGrandRow dfS]

theorem dedupFirst_go_sublist (l seen : List String) :
    (dedupGo seen l).Sublist l := by
  induction l generalizing seen with
  | nil => exact List.Sublist.refl _
  | cons x xs ih =>
    by_cases h : x ∈ seen
    · simp only [dedupGo, if_pos h]
      exact (ih seen).trans (List.sublist_cons_self x xs)
    · simp only [dedupGo, if_neg h]
      exact (ih (x :: seen)).cons₂ x

theorem dedupFirst_go_not_mem_seen :
    ∀ (l seen : List String) {y : String}, y ∈ dedupGo seen l → y ∉ seen
  | [], _, _, hy => by simp [dedupGo] at hy
  | x :: xs, seen, y, hy => by
    by_cases h : x ∈ seen
    · rw [show dedupGo seen (x :: xs) = dedupGo seen xs by
        simp [dedupGo, h]] at hy
      exact dedupFirst_go_not_mem_seen xs seen hy
    · rw [show dedupGo seen (x :: xs) = x :: dedupGo (x :: seen) xs by
        simp [dedupGo, h]] at hy
      rcases List.mem_cons.mp hy with rfl | hy'
      · exact h
      · have h2 := dedupFirst_go_not_mem_seen xs (x :: seen) hy'
        exact fun hc => h2 (List.mem_cons_of_mem _ hc)

theorem dedupFirst_go_nodup : ∀ (l seen : List String), (dedupGo seen l).Nodup
  | [], _ => by simp [dedupGo]
  | x :: xs, seen => by
    by_cases h : x ∈ seen
    · rw [show dedupGo seen (x :: xs) = dedupGo seen xs by
        simp [dedupGo, h]]
      exact dedupFirst_go_nodup xs seen
    · rw [show dedupGo seen (x :: xs) = x :: dedupGo (x :: seen) xs by
        simp [dedupGo, h]]
      refine List.nodup_cons.mpr ⟨?_, dedupFirst_go_nodup xs (x :: seen)⟩
      intro hx
      exact (dedupFirst_go_not_mem_seen xs (x :: seen) hx) (List.mem_cons_self x seen)

theorem dedupFirst_nodup (l : List String) : (dedupFirst l).Nodup :=
  dedupFirst_go_nodup l []

theorem dedupFirst_sublist (l : List String) : (dedupFirst l).Sublist l :=
  dedupFirst_go_sublist l []

theorem strAppend_cancel {u v s : String} (h : u ++ s = v ++ s) : u = v := by
  have h2 := congrArg String.data h
  simp only [String.data_append] at h2
  exact String.ext (List.append_left_injective s.data h2)

theorem strLtB_eq_of_not_lt : ∀ (x y : List Char),
    strLtB x y = false → strLtB y x = false → x = y
  | [], [], _, _ => rfl
  | [], _ :: _, h1, _ => by simp [strLtB] at h1
  | _ :: _, [], _, h2 => by simp [strLtB] at h2
  | a :: as, b :: bs, h1, h2 => by
    have hab : ¬ a.toNat < b.toNat := fun hc => by simp [strLtB, hc] at h1
    have hba : ¬ b.toNat < a.toNat := fun hc => by simp [strLtB, hc] at h2
    have hnat : a.toNat = b.toNat := by omega
    have hchar : a = b := Char.eq_of_val_eq (UInt32.eq_of_toBitVec_eq
      (BitVec.toNat_injective hnat))
    subst hchar
    simp only [strLtB, lt_self_iff_false, if_false] at h1 h2
    rw [strLtB_eq_of_not_lt as bs h1 h2]

theorem strLt_total_eq {a b : String} (h1 : strLt a b = false)
    (h2 : strLt b a = false) : a = b :=
  String.ext (strLtB_eq_of_not_lt _ _ h1 h2)

theorem filter_label {keys : List String} (dfS : List DRow) (hnd : keys.Nodup)
    {item : String} (hmem : item ∈ keys) :
    (keys.map (mkSubRow dfS)).filter (fun p => p.item == item ++ " Subtotal") =
      [mkSubRow dfS item] := by
  induction keys with
  | nil => cases hmem
  | cons x rest ih =>
    have hx : x ∉ rest := (List.nodup_cons.mp hnd).1
    have hr : rest.Nodup := (List.nodup_cons.mp hnd).2
    rcases List.mem_cons.mp hmem with rfl | hmem'
    · have hcond : ((mkSubRow dfS item).item == item ++ " Subtotal") = true := by
        simp [mkSubRow, PRow.item]
      have hnil : ((rest.map (mkSubRow dfS)).filter
          (fun p => p.item == item ++ " Subtotal")) = [] := by
        apply List.filter_eq_nil_iff.mpr
        intro p hp
        rcases List.mem_map.mp hp with ⟨k, hk, rfl⟩
        simp only [mkSubRow, PRow.item]
        intro hcon
        have heq : k ++ " Subtotal" = item ++ " Subtotal" := by
          simpa using hcon
        exact hx ((strAppend_cancel heq) ▸ hk)
      simp [List.filter_cons, hcond, hnil]
    · have hne : x ≠ item := fun e => hx (e ▸ hmem')
      have hcond : ((mkSubRow dfS x).item == item ++ " Subtotal") = false := by
        simp only [mkSubRow, PRow.item, beq_eq_false_iff_ne, ne_eq]
        exact fun e => hne (strAppend_cancel e)
      simp [List.filter_cons, hcond, ih hr hmem']

theorem dfSubtotals_filter (dfS : List DRow) {item : String}
    (hmem : item ∈ dedupFirst (dfS.map DRow.ITEM)) :
    (dfSubtotals dfS).filter (fun p => p.item == item ++ " Subtotal") =
      [mkSubRow dfS item] :=
  filter_label dfS (dedupFirst_nodup _) hmem

/-- C5: the assembled pandas report is, literally, the groups in ascending
key order, each group's data rows in post-sort order followed by exactly
one subtotal row labeled with the group key plus `' Subtotal'`, and after
all groups exactly one grand-total row labeled `'Grand Total'`. -/
theorem report_assembly (df : List DRow) :
    dfSortAndSubtotal df =
      ((dedupFirst ((dfSortValues df).map DRow.ITEM)).map (fun item =>
        ((dfSortValues df).filter (fun r => r.ITEM == item)).map PRow.data
          ++ [mkSubRow (dfSortValues df) item])).flatten
        ++ [mkGrandRow (dfSortValues df)] ∧
    (dedupFirst ((dfSortValues df).map DRow.ITEM)).Pairwise
      (fun a b => strLt a b = true) := by
  constructor
  · simp only [dfSortAndSubtotal]
    congr 1
    apply congrArg List.flatten
    apply List.map_congr_left
    intro item hmem
    rw [dfSubtotals_filter (dfSortValues df) hmem]
  · have hp : ((dfSortValues df).map DRow.ITEM).Pairwise
        (fun a b => !(strLt b a) = true) := by
      apply List.pairwise_map.mpr
      have hs := ssort_pairwise (fun r : DRow => (Sum.inr r.ITEM : SKey)) df
      exact hs.imp (fun h => by simpa [skLe] using h)
    have hsub : (dedupFirst ((dfSortValues df).map DRow.ITEM)).Pairwise
        (fun a b => !(strLt b a) = true) :=
      hp.sublist (dedupFirst_sublist _)
    have hnd : (dedupFirst ((dfSortValues df).map DRow.ITEM)).Pairwise (· ≠ ·) :=
      dedupFirst_nodup _
    refine (hsub.and hnd).imp ?_
    rintro a b ⟨h1, h2⟩
    cases hlt : strLt a b with
    | true => rfl
    | false =>
      exfalso
      have hba : strLt b a = false := by simpa using h1
      exact h2 (strLt_total_eq hlt hba)
